import Mathlib

/-!
Shallow embedding of the process-enumeration and signal-dispatch core of
`git-sync` (files `main` / `SignalProcs` and `pkg/gopsutil/gopsutil.go`).

Go strings and byte slices are modelled as `List Char`, one `Char` per byte;
all Go string operations used by the code (`strings.Split`, `strings.SplitN`
with limit 2, `strings.TrimRight`, `strings.Trim`, `strings.HasPrefix`,
`filepath.Base`, `bytes.Split`, `strconv.ParseInt`) are embedded below.
Filesystem reads are modelled with `Option`: `none` is a read error.
-/

set_option autoImplicit false

namespace GitSync

/-- A Go string / byte slice: one `Char` per byte. -/
abbrev GoStr := List Char

/-- The NUL byte separating cmdline arguments. -/
def nulChar : Char := '\x00'

/-- The cutset `" \t"` of `strings.Trim(value, " \t")`. -/
def spaceTabCutset : List Char := [' ', '\t']

/-- The literal key string `"Name"` matched in the status-record loop. -/
def nameKey : GoStr := "Name".data

/-- `strings.SplitN(s, sep, 2)` for a one-byte separator, reported as
`none` when `sep` does not occur (Go would return the one-element slice
`[s]`, so `len(tabParts) < 2` holds exactly when this returns `none`),
and `some (before, after)` for the split at the first occurrence. -/
def splitFirst (sep : Char) : GoStr → Option (GoStr × GoStr)
  | [] => none
  | c :: cs =>
    if c = sep then some ([], cs)
    else
      match splitFirst sep cs with
      | none => none
      | some (a, b) => some (c :: a, b)

/-- `strings.Split(s, sep)` / `bytes.Split(s, sep)` for a one-byte
separator: `goSplit sep [] = [[]]`, and each occurrence of `sep` starts a
new chunk. -/
def goSplit (sep : Char) : GoStr → List GoStr
  | [] => [[]]
  | c :: cs =>
    let r := goSplit sep cs
    if c = sep then [] :: r
    else
      match r with
      | [] => [[c]]
      | h :: t => (c :: h) :: t

/-- `strings.TrimRight(s, string cut)` for a one-byte cutset: removes all
trailing occurrences of `cut`. -/
def trimRightChar (cut : Char) (s : GoStr) : GoStr :=
  (s.reverse.dropWhile (fun c => c = cut)).reverse

/-- `strings.Trim(s, cutset)`: removes leading and trailing bytes that are
members of `cutset`. -/
def trimChars (cutset : List Char) (s : GoStr) : GoStr :=
  ((s.dropWhile (fun c => cutset.contains c)).reverse.dropWhile
    (fun c => cutset.contains c)).reverse

/-- `strings.HasPrefix(s, pre)`. -/
def goStartsWith : GoStr → GoStr → Bool
  | _, [] => true
  | [], _ :: _ => false
  | c :: cs, p :: ps => c = p && goStartsWith cs ps

/-- `filepath.Base(path)` on a Unix host: `"."` for the empty path, a
single separator when the path is all separators, otherwise the final
path element after stripping trailing separators. -/
def goBase (path : GoStr) : GoStr :=
  if path = [] then ['.']
  else
    let p1 := (path.reverse.dropWhile (fun c => c = '/')).reverse
    let p2 := (p1.reverse.takeWhile (fun c => ¬ c = '/')).reverse
    if p2 = [] then ['/'] else p2

/-- ASCII decimal digit test, the digit class of `strconv.ParseInt` in
base 10. -/
def isDigitChar (c : Char) : Bool := decide ('0' ≤ c) && decide (c ≤ '9')

/-- Value of one decimal digit byte. -/
def digitVal (c : Char) : Option Nat :=
  if isDigitChar c then some (c.toNat - '0'.toNat) else none

/-- Accumulating digit parse: `none` as soon as a non-digit byte appears. -/
def digitsValAux (acc : Nat) : GoStr → Option Nat
  | [] => some acc
  | c :: cs =>
    match digitVal c with
    | none => none
    | some d => digitsValAux (acc * 10 + d) cs

/-- `strconv.ParseInt(s, 10, 32)`: an optional leading `+` or `-`, then at
least one decimal digit, with the signed value required to fit in 32 bits;
every other input is an error (`none`). -/
def parseIntBase10Int32 (s : GoStr) : Option Int :=
  match s with
  | [] => none
  | c :: cs =>
    let signBody : Bool × GoStr :=
      if c = '-' then (true, cs)
      else if c = '+' then (false, cs)
      else (false, s)
    match signBody.2 with
    | [] => none
    | _ :: _ =>
      match digitsValAux 0 signBody.2 with
      | none => none
      | some n =>
        let v : Int := if signBody.1 then -(n : Int) else (n : Int)
        if -2147483648 ≤ v ∧ v ≤ 2147483647 then some v else none

/-- `readPidsFromDir`: each directory entry name that `ParseInt` accepts
becomes one pid, in directory order; entries that fail to parse are
skipped without error. -/
def readPidsFromDir (entries : List GoStr) : List Int :=
  entries.filterMap parseIntBase10Int32

/-- The two per-process files the core reads; `none` models a read error
(`ioutil.ReadFile` failing). -/
structure ProcFiles where
  status : Option GoStr
  cmdline : Option GoStr
deriving DecidableEq, Repr

/-- The `Process` struct: pid plus the lazily cached `name` field
(the zero value `""` means not yet resolved). -/
structure Process where
  pid : Int
  name : GoStr
deriving DecidableEq, Repr

/-- `fillSliceFromCmdlineWithContext`: read the cmdline record; a
zero-length record yields the empty argument slice; otherwise one optional
trailing NUL byte is stripped and the rest is split on NUL. `none` is a
read error. -/
def fillSliceFromCmdline (f : ProcFiles) : Option (List GoStr) :=
  match f.cmdline with
  | none => none
  | some cmdline =>
    if cmdline = [] then some []
    else
      let stripped :=
        if cmdline.getLast? = some nulChar then cmdline.dropLast else cmdline
      some (goSplit nulChar stripped)

/-- The line loop of `NameWithContext`, threading the mutable `p.name`.
Returns the final value of `p.name` and whether the loop aborted with a
cmdline read error (in Go: `return "", err` after `p.name` was already
assigned the trimmed status name). -/
def nameLinesLoop (f : ProcFiles) : GoStr → List GoStr → GoStr × Bool
  | name, [] => (name, false)
  | name, line :: rest =>
    match splitFirst '\t' line with
    | none => nameLinesLoop f name rest
    | some (k, v) =>
      if trimRightChar ':' k = nameKey then
        let nm := trimChars spaceTabCutset v
        if 15 ≤ nm.length then
          match fillSliceFromCmdline f with
          | none => (nm, true)
          | some [] => nameLinesLoop f nm rest
          | some (first :: _) =>
            nameLinesLoop f
              (if goStartsWith (goBase first) nm then goBase first else first)
              rest
        else nameLinesLoop f nm rest
      else nameLinesLoop f name rest

/-- Core of `NameWithContext` as a pure state transformer on the cached
name: given the files and the current `p.name`, return the call's result
(`none` on read error — Go's first return value is `""` on every error
path) together with the new `p.name`. -/
def nameResult (f : ProcFiles) (name0 : GoStr) : Option GoStr × GoStr :=
  if name0 = [] then
    match f.status with
    | none => (none, name0)
    | some contents =>
      match nameLinesLoop f name0 (goSplit '\n' contents) with
      | (nm, true) => (none, nm)
      | (nm, false) => (some nm, nm)
  else (some name0, name0)

/-- `(*Process).NameWithContext`: result plus the updated handle. -/
def nameWithContext (f : ProcFiles) (p : Process) : Option GoStr × Process :=
  ((nameResult f p.name).1, ⟨p.pid, (nameResult f p.name).2⟩)

/-- A handle as freshly built by `ProcessesWithContext`: `name` is the
zero value. -/
def freshProc (pid : Int) : Process := ⟨pid, []⟩

/-- The name `SignalProcs` actually compares: the first return value of
`Name()` on a fresh handle, which is the empty string whenever resolution
errors (the error itself is discarded by `name, _ :=`). -/
def loopName (f : ProcFiles) : GoStr :=
  match (nameResult f []).1 with
  | some n => n
  | none => []

/-- The world `SignalProcs` runs against: the directory listing of the
proc root (`none` models `Processes()` failing), the per-pid files, and
whether `SendSignal` succeeds for a given pid and signal. -/
structure Env where
  dirEntries : Option (List GoStr)
  fs : Int → ProcFiles
  sendOk : Int → Int → Bool

/-- The dispatch loop of `SignalProcs`: for each handle resolve the name
discarding the error, and on an exact match attempt delivery, aborting on
the first failure. The accumulator records every pid to which delivery was
attempted, in order; on failure the failing pid is the last entry. -/
def signalLoop (env : Env) (target : GoStr) (sig : Int) :
    List Process → List Int → Option Unit × List Int
  | [], acc => (some (), acc)
  | p :: rest, acc =>
    let name :=
      match (nameWithContext (env.fs p.pid) p).1 with
      | some n => n
      | none => []
    if name = target then
      if env.sendOk p.pid sig then
        signalLoop env target sig rest (acc ++ [p.pid])
      else (none, acc ++ [p.pid])
    else signalLoop env target sig rest acc

/-- `SignalProcs(flProcName, flProcSignal)`: enumerate (propagating an
enumeration failure with nothing sent), then run the dispatch loop over
fresh handles. Returns the call result and the list of attempted
deliveries in order. -/
def signalProcs (env : Env) (flProcName : GoStr) (flProcSignal : Int) :
    Option Unit × List Int :=
  match env.dirEntries with
  | none => (none, [])
  | some entries =>
    signalLoop env flProcName flProcSignal
      ((readPidsFromDir entries).map freshProc) []

/-- Does this status line carry the `Name` key (a tab present, trailing
colons stripped)? Used to isolate the unique `Name` line in hypotheses. -/
def lineIsName (l : GoStr) : Bool :=
  match splitFirst '\t' l with
  | none => false
  | some (k, _) => decide (trimRightChar ':' k = nameKey)

/-- Does this status line carry the `Name` key with a trimmed value of
length at least 15 (exactly the lines that trigger the cmdline
fallback)? -/
def lineIsLongName (l : GoStr) : Bool :=
  match splitFirst '\t' l with
  | none => false
  | some (k, v) =>
    decide (trimRightChar ':' k = nameKey) &&
      decide (15 ≤ (trimChars spaceTabCutset v).length)

/-- Modelled from the spec words of C3: the entry's full name is a valid
non-negative base-10 integer, i.e. a nonempty all-digit string. -/
def specNonNegNumeral (s : GoStr) : Bool :=
  !s.isEmpty && s.all isDigitChar

/-- Spec-side sign handling for the amended C3: an optional leading `-`
or `+` with its sign value. -/
def specSignSplit (s : GoStr) : Int × GoStr :=
  match s with
  | [] => (1, [])
  | c :: rest =>
    if c = '-' then (-1, rest)
    else if c = '+' then (1, rest)
    else (1, c :: rest)

/-- Spec-side value of an all-digit string, as a left fold. -/
def specDigitsVal (s : GoStr) : Nat :=
  s.foldl (fun a c => a * 10 + (c.toNat - '0'.toNat)) 0

/-- Spec-side reading of the amended C3: an optionally signed nonempty
all-digit numeral whose signed value fits in 32 bits yields that value;
anything else is rejected. -/
def specEntryVal (s : GoStr) : Option Int :=
  let sb := specSignSplit s
  if sb.2 ≠ [] ∧ sb.2.all isDigitChar then
    let v : Int := sb.1 * (specDigitsVal sb.2 : Int)
    if -2147483648 ≤ v ∧ v ≤ 2147483647 then some v else none
  else none

/- ### Helper lemmas about name resolution -/

theorem fillSlice_of_cmdline_none (f : ProcFiles) (h : f.cmdline = none) :
    fillSliceFromCmdline f = none := by
  simp [fillSliceFromCmdline, h]

theorem nameLinesLoop_skip (f : ProcFiles) (n l : GoStr) (rest : List GoStr)
    (h : lineIsName l = false) :
    nameLinesLoop f n (l :: rest) = nameLinesLoop f n rest := by
  cases hs : splitFirst '\t' l with
  | none => simp [nameLinesLoop, hs]
  | some kv =>
    obtain ⟨k, v⟩ := kv
    simp only [lineIsName, hs, decide_eq_false_iff_not] at h
    simp [nameLinesLoop, hs, h]

theorem nameLinesLoop_skipAll (f : ProcFiles) (n : GoStr)
    (pre rest : List GoStr) (h : ∀ l ∈ pre, lineIsName l = false) :
    nameLinesLoop f n (pre ++ rest) = nameLinesLoop f n rest := by
  induction pre with
  | nil => rfl
  | cons l ls ih =>
    rw [List.cons_append, nameLinesLoop_skip f n l (ls ++ rest)
      (h l (List.mem_cons_self l ls))]
    exact ih fun x hx => h x (List.mem_cons_of_mem l hx)

theorem nameLinesLoop_end (f : ProcFiles) (n : GoStr) (post : List GoStr)
    (h : ∀ l ∈ post, lineIsName l = false) :
    nameLinesLoop f n post = (n, false) := by
  have h1 := nameLinesLoop_skipAll f n post [] h
  rw [List.append_nil] at h1
  exact h1

theorem nameResult_of_loop (f : ProcFiles) (contents nm : GoStr)
    (hst : f.status = some contents)
    (hl : nameLinesLoop f [] (goSplit '\n' contents) = (nm, false)) :
    nameResult f [] = (some nm, nm) := by
  simp [nameResult, hst, hl]

/-- Claim C7: a status record whose unique `Name` line (tab-separated key
with trailing colons stripped) carries a value whose space/tab-trimmed
form is shorter than 15 bytes resolves to that trimmed value, for every
state of the cmdline record — including an unreadable one — so the
cmdline record is never consulted. -/
theorem claim_C7 (pid : Int) (contents : GoStr) (pre post : List GoStr)
    (line k v nm : GoStr) (cm : Option GoStr)
    (hlines : goSplit '\n' contents = pre ++ line :: post)
    (hpre : ∀ l ∈ pre, lineIsName l = false)
    (hpost : ∀ l ∈ post, lineIsName l = false)
    (hs : splitFirst '\t' line = some (k, v))
    (hk : trimRightChar ':' k = nameKey)
    (hnm : nm = trimChars spaceTabCutset v)
    (hshort : nm.length < 15) :
    nameWithContext ⟨some contents, cm⟩ (freshProc pid) =
      (some nm, ⟨pid, nm⟩) := by
  subst hnm
  have hlt : ¬ 15 ≤ (trimChars spaceTabCutset v).length := not_le.mpr hshort
  have hloop : nameLinesLoop ⟨some contents, cm⟩ [] (goSplit '\n' contents)
      = (trimChars spaceTabCutset v, false) := by
    rw [hlines, nameLinesLoop_skipAll _ _ _ _ hpre]
    simp only [nameLinesLoop, hs, hk, if_pos rfl, hlt, if_neg hlt]
    exact nameLinesLoop_end _ _ _ hpost
  simp [nameWithContext, freshProc, nameResult_of_loop _ _ _ rfl hloop]

theorem claim_C7_witness :
    nameWithContext ⟨some "Name:\tshort".data, none⟩ (freshProc 7) =
      (some "short".data, ⟨7, "short".data⟩) := by
  exact claim_C7 7 "Name:\tshort".data [] [] "Name:\tshort".data
    "Name:".data "short".data "short".data none (by decide)
    (by simp) (by simp) (by decide) (by decide) (by decide) (by decide)

/-- Claim C2: with a unique `Name` line whose trimmed value `nm` has
length at least 15 and a readable cmdline record splitting into at least
one argument, resolution returns the base name of the first argument when
that base name has `nm` as a literal prefix, and the raw unmodified first
argument otherwise. -/
theorem claim_C2 (pid : Int) (f : ProcFiles) (contents : GoStr)
    (pre post : List GoStr) (line k v nm first : GoStr) (args : List GoStr)
    (hstatus : f.status = some contents)
    (hlines : goSplit '\n' contents = pre ++ line :: post)
    (hpre : ∀ l ∈ pre, lineIsName l = false)
    (hpost : ∀ l ∈ post, lineIsName l = false)
    (hs : splitFirst '\t' line = some (k, v))
    (hk : trimRightChar ':' k = nameKey)
    (hnm : nm = trimChars spaceTabCutset v)
    (hlong : 15 ≤ nm.length)
    (hcmd : fillSliceFromCmdline f = some (first :: args)) :
    nameWithContext f (freshProc pid) =
      (some (if goStartsWith (goBase first) nm then goBase first else first),
        ⟨pid, if goStartsWith (goBase first) nm then goBase first
          else first⟩) := by
  subst hnm
  have hloop : nameLinesLoop f [] (goSplit '\n' contents)
      = (if goStartsWith (goBase first) (trimChars spaceTabCutset v) then
          goBase first else first, false) := by
    rw [hlines, nameLinesLoop_skipAll _ _ _ _ hpre]
    simp only [nameLinesLoop, hs, hk, if_pos rfl, hlong, if_pos hlong, hcmd]
    exact nameLinesLoop_end _ _ _ hpost
  simp [nameWithContext, freshProc, nameResult_of_loop _ _ _ hstatus hloop]

theorem claim_C2_witness :
    nameWithContext
        ⟨some "Name:\taverylongprocessname".data,
          some ("/usr/bin/averylongprocessname-extended".data ++ [nulChar])⟩
        (freshProc 5) =
      (some "averylongprocessname-extended".data,
        ⟨5, "averylongprocessname-extended".data⟩) := by
  have h := claim_C2 5
    ⟨some "Name:\taverylongprocessname".data,
      some ("/usr/bin/averylongprocessname-extended".data ++ [nulChar])⟩
    "Name:\taverylongprocessname".data [] []
    "Name:\taverylongprocessname".data "Name:".data
    "averylongprocessname".data "averylongprocessname".data
    "/usr/bin/averylongprocessname-extended".data []
    rfl (by decide) (by simp) (by simp) (by decide) (by decide) (by decide)
    (by decide) (by decide)
  exact h.trans (by decide)

/-- Claim C8: with a unique `Name` line whose trimmed value `nm` has
length at least 15 and a readable but zero-length cmdline record (the
only way argument splitting yields no arguments), resolution keeps and
returns the original truncated status name `nm`. -/
theorem claim_C8 (pid : Int) (f : ProcFiles) (contents : GoStr)
    (pre post : List GoStr) (line k v nm : GoStr)
    (hstatus : f.status = some contents)
    (hcmdline : f.cmdline = some [])
    (hlines : goSplit '\n' contents = pre ++ line :: post)
    (hpre : ∀ l ∈ pre, lineIsName l = false)
    (hpost : ∀ l ∈ post, lineIsName l = false)
    (hs : splitFirst '\t' line = some (k, v))
    (hk : trimRightChar ':' k = nameKey)
    (hnm : nm = trimChars spaceTabCutset v)
    (hlong : 15 ≤ nm.length) :
    nameWithContext f (freshProc pid) = (some nm, ⟨pid, nm⟩) := by
  subst hnm
  have hcmd : fillSliceFromCmdline f = some [] := by
    simp [fillSliceFromCmdline, hcmdline]
  have hloop : nameLinesLoop f [] (goSplit '\n' contents)
      = (trimChars spaceTabCutset v, false) := by
    rw [hlines, nameLinesLoop_skipAll _ _ _ _ hpre]
    simp only [nameLinesLoop, hs, hk, if_pos rfl, hlong, if_pos hlong, hcmd]
    exact nameLinesLoop_end _ _ _ hpost
  simp [nameWithContext, freshProc, nameResult_of_loop _ _ _ hstatus hloop]

theorem claim_C8_witness :
    nameWithContext ⟨some "Name:\taverylongprocessname".data, some []⟩
        (freshProc 9) =
      (some "averylongprocessname".data,
        ⟨9, "averylongprocessname".data⟩) := by
  exact claim_C8 9 ⟨some "Name:\taverylongprocessname".data, some []⟩
    "Name:\taverylongprocessname".data [] []
    "Name:\taverylongprocessname".data "Name:".data
    "averylongprocessname".data "averylongprocessname".data
    rfl rfl (by decide) (by simp) (by simp) (by decide) (by decide)
    (by decide) (by decide)

theorem nameLinesLoop_longFree_step (f : ProcFiles) (n l : GoStr)
    (rest : List GoStr) (h : lineIsLongName l = false) :
    ∃ n2, nameLinesLoop f n (l :: rest) = nameLinesLoop f n2 rest := by
  cases hs : splitFirst '\t' l with
  | none => exact ⟨n, by simp [nameLinesLoop, hs]⟩
  | some kv =>
    obtain ⟨k, v⟩ := kv
    simp only [lineIsLongName, hs, Bool.and_eq_false_iff,
      decide_eq_false_iff_not] at h
    by_cases hk : trimRightChar ':' k = nameKey
    · have hlen : ¬ 15 ≤ (trimChars spaceTabCutset v).length := by
        rcases h with h | h
        · exact absurd hk h
        · exact h
      exact ⟨trimChars spaceTabCutset v,
        by simp [nameLinesLoop, hs, hk, hlen]⟩
    · exact ⟨n, by simp [nameLinesLoop, hs, hk]⟩

theorem nameLinesLoop_error (f : ProcFiles) (pre post : List GoStr)
    (line k v : GoStr) (hcm : f.cmdline = none)
    (hpre : ∀ l ∈ pre, lineIsLongName l = false)
    (hs : splitFirst '\t' line = some (k, v))
    (hk : trimRightChar ':' k = nameKey)
    (hlen : 15 ≤ (trimChars spaceTabCutset v).length) :
    ∀ n, nameLinesLoop f n (pre ++ line :: post)
      = (trimChars spaceTabCutset v, true) := by
  induction pre with
  | nil =>
    intro n
    simp [nameLinesLoop, hs, hk, hlen, fillSlice_of_cmdline_none f hcm]
  | cons l ls ih =>
    intro n
    obtain ⟨n2, hn2⟩ := nameLinesLoop_longFree_step f n l
      (ls ++ line :: post) (hpre l (List.mem_cons_self l ls))
    rw [List.cons_append, hn2]
    exact ih (fun x hx => hpre x (List.mem_cons_of_mem l hx)) n2

theorem nameResult_cached (f : ProcFiles) (n0 : GoStr) (h : ¬ n0 = []) :
    nameResult f n0 = (some n0, n0) := by
  simp [nameResult, h]

/-- Claim C9: when the unique long-`Name` status line has trimmed value
`nm` (length at least 15, and no earlier line would trigger the cmdline
fallback) and the cmdline record is unreadable, the first resolution
returns an error yet caches `nm` on the handle, so every later resolution
— against any filesystem state whatsoever, hence with no read at all —
returns `nm` without error. -/
theorem claim_C9 (pid : Int) (f : ProcFiles) (contents : GoStr)
    (pre post : List GoStr) (line k v nm : GoStr)
    (hstatus : f.status = some contents)
    (hcm : f.cmdline = none)
    (hlines : goSplit '\n' contents = pre ++ line :: post)
    (hpre : ∀ l ∈ pre, lineIsLongName l = false)
    (hs : splitFirst '\t' line = some (k, v))
    (hk : trimRightChar ':' k = nameKey)
    (hnm : nm = trimChars spaceTabCutset v)
    (hlong : 15 ≤ nm.length) :
    nameWithContext f (freshProc pid) = (none, ⟨pid, nm⟩) ∧
      ∀ f2 : ProcFiles,
        nameWithContext f2 (⟨pid, nm⟩ : Process) = (some nm, ⟨pid, nm⟩) := by
  subst hnm
  have hne : ¬ trimChars spaceTabCutset v = [] := by
    intro hempty
    rw [hempty] at hlong
    simp at hlong
  have hloop := nameLinesLoop_error f pre post line k v hcm hpre hs hk hlong
  constructor
  · rw [← hlines] at hloop
    simp [nameWithContext, freshProc, nameResult, hstatus, hloop []]
  · intro f2
    simp [nameWithContext, nameResult_cached f2 _ hne]

theorem claim_C9_witness :
    nameWithContext ⟨some "Name:\taverylongprocessname".data, none⟩
        (freshProc 2) =
      (none, ⟨2, "averylongprocessname".data⟩) ∧
      nameWithContext ⟨some "Other:\tx".data, none⟩
          (⟨2, "averylongprocessname".data⟩ : Process) =
        (some "averylongprocessname".data,
          ⟨2, "averylongprocessname".data⟩) := by
  have h := claim_C9 2 ⟨some "Name:\taverylongprocessname".data, none⟩
    "Name:\taverylongprocessname".data [] []
    "Name:\taverylongprocessname".data "Name:".data
    "averylongprocessname".data "averylongprocessname".data
    rfl rfl (by decide) (by simp) (by decide) (by decide) (by decide)
    (by decide)
  exact ⟨h.1, h.2 ⟨some "Other:\tx".data, none⟩⟩

theorem nameResult_ok_name (f : ProcFiles) (n0 nm : GoStr)
    (h : (nameResult f n0).1 = some nm) : (nameResult f n0).2 = nm := by
  by_cases h0 : n0 = []
  · subst h0
    unfold nameResult at h ⊢
    cases hst : f.status with
    | none => simp [hst] at h
    | some contents =>
      cases hl : nameLinesLoop f [] (goSplit '\n' contents) with
      | mk x b =>
        cases b with
        | true => simp [hst, hl] at h
        | false =>
          simp only [hst, hl, if_pos rfl] at h ⊢
          simp at h
          simp [h]
  · rw [nameResult_cached f n0 h0] at h ⊢
    simpa using h

/-- Claim C4, counterexample: a handle whose status record has no usable
`Name` line resolves (successfully) to the empty name, which is never
cached — the handle is returned unchanged — so a second resolution against
a fixture that errors on any read fails instead of returning the cached
name: the second resolution does perform a filesystem read. -/
theorem claim_C4_counterexample :
    (nameWithContext ⟨some "Foo:\tbar".data, some []⟩ (freshProc 1)).1 =
        some [] ∧
      (nameWithContext ⟨some "Foo:\tbar".data, some []⟩ (freshProc 1)).2 =
        freshProc 1 ∧
      (nameWithContext (⟨none, none⟩ : ProcFiles)
        (nameWithContext ⟨some "Foo:\tbar".data, some []⟩
          (freshProc 1)).2).1 = none := by
  decide

/-- Claim C4, amended: once a resolution computes a NONEMPTY name it is
memoized on the handle: a second resolution returns the identical name
with the handle unchanged, for every filesystem state — in particular for
one that would error on any read, so no read is performed. (When the
computed name is empty, nothing is cached and each call re-reads.) -/
theorem claim_C4_amended (f f2 : ProcFiles) (p : Process) (nm : GoStr)
    (hnm : ¬ nm = []) (h : (nameWithContext f p).1 = some nm) :
    (nameWithContext f p).2.name = nm ∧
      nameWithContext f2 (nameWithContext f p).2 =
        (some nm, (nameWithContext f p).2) := by
  have h2 : (nameResult f p.name).2 = nm := nameResult_ok_name f p.name nm h
  have hp2 : (nameWithContext f p).2 = ⟨p.pid, nm⟩ := by
    simp [nameWithContext, h2]
  refine ⟨by rw [hp2], ?_⟩
  rw [hp2]
  simp [nameWithContext, nameResult_cached f2 nm hnm]

theorem claim_C4_amended_witness :
    (nameWithContext ⟨some "Name:\tfoo".data, some []⟩ (freshProc 1)).2.name
        = "foo".data ∧
      nameWithContext (⟨none, none⟩ : ProcFiles)
          (nameWithContext ⟨some "Name:\tfoo".data, some []⟩
            (freshProc 1)).2 =
        (some "foo".data,
          (nameWithContext ⟨some "Name:\tfoo".data, some []⟩
            (freshProc 1)).2) := by
  exact claim_C4_amended ⟨some "Name:\tfoo".data, some []⟩
    (⟨none, none⟩ : ProcFiles) (freshProc 1) "foo".data
    (by decide) (by decide)

/- ### Helper lemmas about the dispatch loop -/

theorem signalLoop_cons (env : Env) (target : GoStr) (sig pid : Int)
    (ps : List Process) (acc : List Int) :
    signalLoop env target sig (freshProc pid :: ps) acc =
      if loopName (env.fs pid) = target then
        (if env.sendOk pid sig then
          signalLoop env target sig ps (acc ++ [pid])
        else (none, acc ++ [pid]))
      else signalLoop env target sig ps acc := by
  cases hr : (nameResult (env.fs pid) []).1 with
  | none => simp [signalLoop, freshProc, loopName, nameWithContext, hr]
  | some n => simp [signalLoop, freshProc, loopName, nameWithContext, hr]

theorem signalLoop_all_ok (env : Env) (target : GoStr) (sig : Int)
    (hsend : ∀ pid sg, env.sendOk pid sg = true) (pids : List Int) :
    ∀ acc : List Int,
      signalLoop env target sig (pids.map freshProc) acc =
        (some (), acc ++ pids.filter
          (fun pid => decide (loopName (env.fs pid) = target))) := by
  induction pids with
  | nil => intro acc; simp [signalLoop]
  | cons pid ps ih =>
    intro acc
    rw [List.map_cons, signalLoop_cons]
    by_cases hm : loopName (env.fs pid) = target
    · simp [hm, hsend pid sig, ih (acc ++ [pid]), List.filter_cons]
    · simp [hm, ih acc, List.filter_cons]

theorem signalLoop_no_match (env : Env) (target : GoStr) (sig : Int)
    (pids : List Int) :
    ∀ acc : List Int, (∀ pid ∈ pids, ¬ loopName (env.fs pid) = target) →
      signalLoop env target sig (pids.map freshProc) acc = (some (), acc) := by
  induction pids with
  | nil => intro acc _; simp [signalLoop]
  | cons pid ps ih =>
    intro acc h
    rw [List.map_cons, signalLoop_cons,
      if_neg (h pid (List.mem_cons_self pid ps))]
    exact ih acc fun x hx => h x (List.mem_cons_of_mem pid hx)

theorem signalLoop_fail (env : Env) (target : GoStr) (sig : Int)
    (pids : List Int) :
    ∀ (good : List Int) (bad : Int) (rest2 acc : List Int),
      pids.filter (fun pid => decide (loopName (env.fs pid) = target)) =
        good ++ bad :: rest2 →
      (∀ m ∈ good, env.sendOk m sig = true) →
      env.sendOk bad sig = false →
      signalLoop env target sig (pids.map freshProc) acc =
        (none, acc ++ good ++ [bad]) := by
  induction pids with
  | nil =>
    intro good bad rest2 acc hfil
    rw [List.filter_nil] at hfil
    exact absurd hfil.symm (by simp)
  | cons pid ps ih =>
    intro good bad rest2 acc hfil hgood hbadf
    rw [List.map_cons, signalLoop_cons]
    by_cases hm : loopName (env.fs pid) = target
    · rw [List.filter_cons_of_pos (by simpa using hm)] at hfil
      cases good with
      | nil =>
        simp only [List.nil_append, List.cons.injEq] at hfil
        obtain ⟨hpb, hrest⟩ := hfil
        subst hpb
        rw [if_pos hm, if_neg (by simp [hbadf])]
        simp
      | cons g gs =>
        simp only [List.cons_append, List.cons.injEq] at hfil
        obtain ⟨hpg, hrest⟩ := hfil
        have hg : env.sendOk pid sig = true := by
          rw [hpg]; exact hgood g (List.mem_cons_self g gs)
        rw [if_pos hm, if_pos (by simp [hg])]
        rw [ih gs bad rest2 (acc ++ [pid]) hrest
          (fun m hm2 => hgood m (List.mem_cons_of_mem g hm2)) hbadf]
        simp [hpg]
    · rw [List.filter_cons_of_neg (by simpa using hm)] at hfil
      rw [if_neg hm]
      exact ih good bad rest2 acc hfil hgood hbadf

theorem loopName_eq_nil_iff (f : ProcFiles) :
    loopName f = [] ↔
      ((nameResult f []).1 = none ∨ (nameResult f []).1 = some []) := by
  unfold loopName
  cases h : (nameResult f []).1 with
  | none => simp
  | some n => simp

/-- Claim C1, counterexample: with process 1's status record unreadable
(its resolution fails) and process 2 resolving to the target name `foo`,
`SignalProcs` does not return the resolution error and does not stop: it
returns success having delivered the signal to the later process 2. -/
theorem claim_C1_counterexample :
    (nameResult (⟨none, none⟩ : ProcFiles) []).1 = none ∧
      signalProcs
          ⟨some ["1".data, "2".data],
            fun pid => if pid = 1 then ⟨none, none⟩
              else ⟨some "Name:\tfoo".data, some []⟩,
            fun _ _ => true⟩
          "foo".data 15 = (some (), [2]) := by
  decide

/-- Claim C1, amended: a per-process resolution failure is NOT fatal to
the dispatch loop: `SignalProcs` discards the error (`name, _ :=`),
treats the process as having the empty resolved name, and continues past
it — so whenever enumeration succeeds and every delivery succeeds, the
call returns success and delivers exactly to the processes whose
(error-discarded) resolved name equals the target, resolution failures
notwithstanding. -/
theorem claim_C1_amended (env : Env) (target : GoStr) (sig : Int)
    (entries : List GoStr) (henum : env.dirEntries = some entries)
    (hsend : ∀ pid sg, env.sendOk pid sg = true) :
    signalProcs env target sig =
      (some (), (readPidsFromDir entries).filter
        (fun pid => decide (loopName (env.fs pid) = target))) := by
  simp only [signalProcs, henum]
  rw [signalLoop_all_ok env target sig hsend (readPidsFromDir entries) []]
  simp

theorem claim_C1_amended_witness :
    signalProcs
        ⟨some ["1".data, "2".data],
          fun pid => if pid = 1 then ⟨none, none⟩
            else ⟨some "Name:\tfoo".data, some []⟩,
          fun _ _ => true⟩
        "foo".data 15 = (some (), [2]) := by
  have h := claim_C1_amended
    ⟨some ["1".data, "2".data],
      fun pid => if pid = 1 then ⟨none, none⟩
        else ⟨some "Name:\tfoo".data, some []⟩,
      fun _ _ => true⟩
    "foo".data 15 ["1".data, "2".data] rfl (fun _ _ => rfl)
  exact h.trans (by decide)

/-- Claim C5: when the matched pids in enumeration order are
`good ++ bad :: rest2`, with delivery succeeding on every pid of `good`
and failing on `bad`, the call returns the delivery failure after
attempting exactly `good ++ [bad]`: nothing later is attempted, and the
earlier deliveries stand (they remain in the attempt list — no
rollback). -/
theorem claim_C5 (env : Env) (target : GoStr) (sig : Int)
    (entries : List GoStr) (good : List Int) (bad : Int) (rest2 : List Int)
    (henum : env.dirEntries = some entries)
    (hmatch : (readPidsFromDir entries).filter
        (fun pid => decide (loopName (env.fs pid) = target)) =
      good ++ bad :: rest2)
    (hgood : ∀ m ∈ good, env.sendOk m sig = true)
    (hbad : env.sendOk bad sig = false) :
    signalProcs env target sig = (none, good ++ [bad]) := by
  simp only [signalProcs, henum]
  rw [signalLoop_fail env target sig (readPidsFromDir entries)
    good bad rest2 [] hmatch hgood hbad]
  simp

theorem claim_C5_witness :
    signalProcs
        ⟨some ["1".data, "2".data, "3".data],
          fun _ => ⟨some "Name:\tfoo".data, some []⟩,
          fun pid _ => decide (pid = 1)⟩
        "foo".data 9 = (none, [1, 2]) := by
  have h := claim_C5
    ⟨some ["1".data, "2".data, "3".data],
      fun _ => ⟨some "Name:\tfoo".data, some []⟩,
      fun pid _ => decide (pid = 1)⟩
    "foo".data 9 ["1".data, "2".data, "3".data] [1] 2 [3]
    rfl (by decide) (by decide) (by decide)
  exact h.trans (by decide)

/-- Claim C6: a target name that equals no enumerated process's resolved
name (exact, case-sensitive comparison; a failed resolution counts as the
empty name) makes `SignalProcs` return success with zero delivery
attempts. -/
theorem claim_C6 (env : Env) (target : GoStr) (sig : Int)
    (entries : List GoStr) (henum : env.dirEntries = some entries)
    (hnone : ∀ pid ∈ readPidsFromDir entries,
      ¬ loopName (env.fs pid) = target) :
    signalProcs env target sig = (some (), []) := by
  simp only [signalProcs, henum]
  exact signalLoop_no_match env target sig (readPidsFromDir entries) []
    hnone

theorem claim_C6_witness :
    signalProcs
        ⟨some ["4".data], fun _ => ⟨some "Name:\tbar".data, some []⟩,
          fun _ _ => true⟩
        "foo".data 15 = (some (), []) := by
  exact claim_C6
    ⟨some ["4".data], fun _ => ⟨some "Name:\tbar".data, some []⟩,
      fun _ _ => true⟩
    "foo".data 15 ["4".data] rfl (by decide)

/-- Claim C10: `SignalProcs` treats a process whose resolution fails as
having the empty resolved name (the error is discarded), so with the
empty string as target (and deliveries succeeding), the signal is
delivered exactly to the enumerated processes whose resolution failed or
whose resolved name is empty. -/
theorem claim_C10 (env : Env) (sig : Int) (entries : List GoStr)
    (henum : env.dirEntries = some entries)
    (hsend : ∀ pid sg, env.sendOk pid sg = true) :
    signalProcs env [] sig =
      (some (), (readPidsFromDir entries).filter
        (fun pid => decide ((nameResult (env.fs pid) []).1 = none ∨
          (nameResult (env.fs pid) []).1 = some []))) := by
  simp only [signalProcs, henum]
  rw [signalLoop_all_ok env [] sig hsend (readPidsFromDir entries) []]
  simp only [List.nil_append]
  congr 1
  exact List.filter_congr fun pid _ => by
    simp [loopName_eq_nil_iff (env.fs pid)]

theorem claim_C10_witness :
    signalProcs
        ⟨some ["1".data, "2".data, "3".data],
          fun pid =>
            if pid = 1 then ⟨none, none⟩
            else if pid = 2 then ⟨some "Name:\tfoo".data, some []⟩
            else ⟨some "Foo:\tx".data, some []⟩,
          fun _ _ => true⟩
        [] 9 = (some (), [1, 3]) := by
  have h := claim_C10
    ⟨some ["1".data, "2".data, "3".data],
      fun pid =>
        if pid = 1 then ⟨none, none⟩
        else if pid = 2 then ⟨some "Name:\tfoo".data, some []⟩
        else ⟨some "Foo:\tx".data, some []⟩,
      fun _ _ => true⟩
    9 ["1".data, "2".data, "3".data] rfl (fun _ _ => rfl)
  exact h.trans (by decide)

/- ### Enumeration: ParseInt agrees with the spec-side numeral reading -/

theorem digitsValAux_eq (ds : GoStr) : ∀ acc : Nat,
    digitsValAux acc ds =
      if ds.all isDigitChar then
        some (ds.foldl (fun a c => a * 10 + (c.toNat - '0'.toNat)) acc)
      else none := by
  induction ds with
  | nil => intro acc; simp [digitsValAux]
  | cons c cs ih =>
    intro acc
    by_cases hc : isDigitChar c
    · simp [digitsValAux, digitVal, hc, ih, List.all_cons]
    · simp [digitsValAux, digitVal, hc, List.all_cons]

set_option maxRecDepth 4000 in
theorem parse_eq_specEntryVal (s : GoStr) :
    parseIntBase10Int32 s = specEntryVal s := by
  cases s with
  | nil => decide
  | cons c cs =>
    have hbody : ∀ (sgn : Bool) (body : GoStr),
        (match body with
          | [] => none
          | _ :: _ =>
            match digitsValAux 0 body with
            | none => none
            | some n =>
              let v : Int := if sgn then -(n : Int) else (n : Int)
              if -2147483648 ≤ v ∧ v ≤ 2147483647 then some v else none) =
          (if body ≠ [] ∧ body.all isDigitChar then
            let v : Int :=
              (if sgn then (-1 : Int) else 1) * (specDigitsVal body : Int)
            if -2147483648 ≤ v ∧ v ≤ 2147483647 then some v else none
          else none) := by
      intro sgn body
      cases body with
      | nil => simp
      | cons d ds =>
        rw [digitsValAux_eq]
        by_cases hall : (d :: ds).all isDigitChar
        · simp only [hall, if_pos hall, ne_eq, reduceCtorEq,
            not_false_eq_true, true_and, if_true]
          cases sgn with
          | true => simp [specDigitsVal, neg_one_mul]
          | false => simp [specDigitsVal]
        · simp [hall]
    by_cases h1 : c = '-'
    · subst h1
      simp only [parseIntBase10Int32, specEntryVal, specSignSplit,
        if_pos rfl]
      exact hbody true cs
    · by_cases h2 : c = '+'
      · subst h2
        have hcm : ¬ ('+' = '-') := by decide
        simp only [parseIntBase10Int32, specEntryVal, specSignSplit,
          if_neg hcm, if_pos rfl]
        exact hbody false cs
      · simp only [parseIntBase10Int32, specEntryVal, specSignSplit,
          if_neg h1, if_neg h2]
        exact hbody false (c :: cs)

/-- Claim C3, counterexample: the directory entry named `-1` is not a
valid non-negative base-10 integer, yet `readPidsFromDir` accepts it and
returns the (negative) id `-1` — `strconv.ParseInt(s, 10, 32)` also
accepts a leading sign, so the enumerated set is not exactly the
non-negative-numeral entries. -/
theorem claim_C3_counterexample :
    readPidsFromDir [['-', '1']] = [(-1 : Int)] ∧
      specNonNegNumeral ['-', '1'] = false := by
  decide

/-- Claim C3, amended: `Enumerate` returns a handle exactly for those
entries whose full name is an optionally signed base-10 numeral whose
value fits in a signed 32-bit integer (so `-1` and `+5` are accepted
alongside plain digit strings); every other entry is silently skipped
without producing an error, and excluding such a non-parsing entry does
not affect which parsed entries are returned. -/
theorem claim_C3_amended (entries xs ys : List GoStr) (bad : GoStr)
    (hbad : specEntryVal bad = none) :
    readPidsFromDir entries = entries.filterMap specEntryVal ∧
      readPidsFromDir (xs ++ bad :: ys) = readPidsFromDir (xs ++ ys) := by
  have hfun : parseIntBase10Int32 = specEntryVal :=
    funext parse_eq_specEntryVal
  constructor
  · unfold readPidsFromDir
    rw [hfun]
  · unfold readPidsFromDir
    have hb : parseIntBase10Int32 bad = none :=
      (parse_eq_specEntryVal bad).trans hbad
    simp [List.filterMap_append, List.filterMap_cons, hb]

theorem claim_C3_amended_witness :
    readPidsFromDir ["abc".data, "57".data, "-4".data] =
        ["abc".data, "57".data, "-4".data].filterMap specEntryVal ∧
      readPidsFromDir (["12".data] ++ "abc".data :: ["57".data]) =
        readPidsFromDir (["12".data] ++ ["57".data]) := by
  exact claim_C3_amended ["abc".data, "57".data, "-4".data]
    ["12".data] ["57".data] "abc".data (by decide)

end GitSync
